import Mathlib

/-
  Verification development for the tram-punctuality helper functions
  (func_definitions.py, with func_defs.py as its implicit-global twin).

  The observation table is embedded as a list of rows; numeric holdup
  columns are rationals; pandas operations are translated operation by
  operation (filter, drop_duplicates, groupby/mean, reindex, value_counts).
  A computation that raises or never returns in Python is modelled as
  an absent value (`none`); the traversal of the successor mapping is
  given an explicit fuel so that non-termination is observable as
  `none` for every fuel.
-/

set_option maxRecDepth 8000 in
/-- One row of the merged weekly observation table (schema of section 6
of the design document: line id, route label, stop codes, holdup
columns in signed seconds). -/
structure Row where
  linie : Nat
  fw_lang : String
  halt_kurz : String
  halt_lang : String
  halt_kurz_von1 : String
  halt_kurz_nach1 : String
  holdup_stop : ℚ
  holdup_trajectory : ℚ
  total_holdup : ℚ
  delay_after_trajectory : ℚ
deriving DecidableEq, Repr

/-- Accumulator pass of Python str.split(): splits at whitespace runs,
dropping empty pieces. -/
def tokensAux (acc : List Char) : List Char → List String
  | [] => if acc.isEmpty then [] else [String.mk acc.reverse]
  | c :: cs =>
    if c.isWhitespace then
      (if acc.isEmpty then tokensAux [] cs
       else String.mk acc.reverse :: tokensAux [] cs)
    else tokensAux (c :: acc) cs

/-- Python str.split() on a route label: whitespace-separated tokens,
empty pieces dropped. -/
def pyTokens (s : String) : List String := tokensAux [] s.toList

/-- data[data["fw_lang"]==route] -/
def routeRows (route : String) (data : List Row) : List Row :=
  data.filter (fun r => r.fw_lang == route)

/-- The successor mapping of stops_on_route: the route's rows projected
to (halt_kurz_von1, halt_kurz_nach1), deduplicated on the origin stop
keeping the last row, indexed by origin.  Looking up an absent origin
stop is a key-lookup failure, hence an Option. -/
def succMap (route : String) (data : List Row) (s : String) : Option String :=
  (((routeRows route data).filter (fun r => r.halt_kurz_von1 == s)).getLast?).map
    (fun r => r.halt_kurz_nach1)

/-- Outcome of the while-loop of stops_on_route: either the built stop
list, or the Python KeyError raised when a stop has no successor. -/
inductive TravResult where
  | ok (stops : List String)
  | keyError (stop : String)
deriving DecidableEq, Repr

/-- The while-loop of stops_on_route, with explicit fuel: append the
current stop and follow the successor mapping until the final stop is
reached.  `none` means the fuel ran out, i.e. within that many
iterations the Python loop has not returned. -/
def travel (succ : String → Option String) (last : String) : Nat → String → Option TravResult
  | 0, _ => none
  | n + 1, current =>
    if current = last then some (TravResult.ok [])
    else
      match succ current with
      | none => some (TravResult.keyError current)
      | some nxt =>
        match travel succ last n nxt with
        | none => none
        | some (TravResult.ok rest) => some (TravResult.ok (current :: rest))
        | some (TravResult.keyError s) => some (TravResult.keyError s)

/-- Fuel that dominates every terminating run of the loop (the visited
stops are distinct origin keys of the route's rows). -/
def travelFuel (data : List Row) : Nat := data.length + 2

/-- stops_on_route: parse the first and third whitespace tokens of the
route label, then follow the successor mapping from the first stop
until the final stop (excluded).  Token-lookup failures (IndexError)
are `none`. -/
def stops_on_route (route : String) (data : List Row) : Option TravResult :=
  match (pyTokens route).get? 0, (pyTokens route).get? 2 with
  | some a, some b => travel (succMap route data) b (travelFuel data) a
  | _, _ => none

/-- Per-stop means of the three holdup columns together with the long
stop name, i.e. one row of the groupby(...).mean() table. -/
structure StopMeans where
  halt_lang : String
  holdup_stop : ℚ
  holdup_trajectory : ℚ
  total_holdup : ℚ
deriving DecidableEq, Repr

/-- Arithmetic mean of a list of rationals (the mean of an empty list
never arises: group keys come from existing rows). -/
def meanOf (l : List ℚ) : ℚ := l.sum / (l.length : ℚ)

/-- The rows of one groupby(["halt_kurz_von1","halt_lang"]) group. -/
def groupFor (route : String) (data : List Row) (k : String × String) : List Row :=
  (routeRows route data).filter
    (fun r => r.halt_kurz_von1 == k.1 && r.halt_lang == k.2)

/-- The distinct (halt_kurz_von1, halt_lang) group keys of the route's
rows (pandas sorts them; the order is irrelevant once the table is
reindexed by label, so any enumeration of the distinct keys is
faithful). -/
def keyList (route : String) (data : List Row) : List (String × String) :=
  ((routeRows route data).map (fun r => (r.halt_kurz_von1, r.halt_lang))).dedup

/-- The means of one group. -/
def meansFor (route : String) (data : List Row) (k : String × String) : StopMeans :=
  { halt_lang := k.2
    holdup_stop := meanOf ((groupFor route data k).map Row.holdup_stop)
    holdup_trajectory := meanOf ((groupFor route data k).map Row.holdup_trajectory)
    total_holdup := meanOf ((groupFor route data k).map Row.total_holdup) }

/-- groupby(["halt_kurz_von1","halt_lang"]).mean(), as a keyed list. -/
def grouped (route : String) (data : List Row) : List ((String × String) × StopMeans) :=
  (keyList route data).map (fun k => (k, meansFor route data k))

/-- contributions: the group means indexed by origin stop code,
reindexed onto the linearized stop sequence; a stop absent from the
group table becomes a row of missing values (`none`).  Reindexing a
frame whose index carries duplicate labels raises in pandas, and
contributions is undefined (`none`) when stops_on_route raises or
diverges. -/
def contributions (route : String) (data : List Row) :
    Option (List (String × Option StopMeans)) :=
  match stops_on_route route data with
  | some (TravResult.ok stops) =>
    if (((keyList route data).map Prod.fst).Nodup) then
      some (stops.map (fun s =>
        (s, ((grouped route data).find? (fun p => p.1.1 == s)).map Prod.snd)))
    else none
  | _ => none

/-- number_of_stops: the length of the contributions table. -/
def number_of_stops (route : String) (data : List Row) : Option Nat :=
  (contributions route data).map List.length

/-- The positional column index selected by the which_holdup string:
"at_stop" is column 0, "on_trajectory" column 1, anything else
(including "total") column 2. -/
def holdupIndex (which_holdup : String) : Nat :=
  if which_holdup == "at_stop" then 0
  else if which_holdup == "on_trajectory" then 1
  else 2

/-- Column idx of a means row (columns in frame order: holdup_stop,
holdup_trajectory, total_holdup). -/
def colSel (idx : Nat) (m : StopMeans) : ℚ :=
  if idx = 0 then m.holdup_stop
  else if idx = 1 then m.holdup_trajectory
  else m.total_holdup

/-- The contribution of one reindexed row to conts.sum()[idx]: a
missing row (NaN) is skipped by the sum, abs is applied cell-wise
before summing when absolute=True. -/
def cellVal (absolute : Bool) (idx : Nat) (o : Option StopMeans) : ℚ :=
  match o with
  | none => 0
  | some m => if absolute then |colSel idx m| else colSel idx m

/-- delay_along_route: drop the name column, optionally take absolute
values, sum the selected holdup column over the contributions table. -/
def delay_along_route (route : String) (data : List Row)
    (which_holdup : String) (absolute : Bool) : Option ℚ :=
  (contributions route data).map
    (fun tbl => (tbl.map (fun p => cellVal absolute (holdupIndex which_holdup) p.2)).sum)

/-- The fw_lang values of the rows of one line. -/
def lineVals (line : Nat) (data : List Row) : List String :=
  (data.filter (fun r => r.linie == line)).map Row.fw_lang

/-- Distinct values in first-occurrence order (List.dedup keeps the
last occurrence, so dedup the reversal). -/
def firstDedup (l : List String) : List String := (l.reverse.dedup).reverse

/-- Occurrence count of a value. -/
def countOf (vals : List String) (v : String) : Nat :=
  (vals.filter (fun w => w == v)).length

/-- Stable insertion (descending by count; an element is placed before
the first strictly less frequent or equally frequent one it meets,
keeping encounter order among ties). -/
def insertByCount (vals : List String) (v : String) : List String → List String
  | [] => [v]
  | w :: ws =>
    if countOf vals w ≤ countOf vals v then v :: w :: ws
    else w :: insertByCount vals v ws

/-- Stable sort by descending occurrence count (the order produced by
value_counts: counts descending, ties in encounter order). -/
def sortByCountDesc (vals : List String) : List String → List String
  | [] => []
  | v :: vs => insertByCount vals v (sortByCountDesc vals vs)

/-- main_routes_of_line: the two most frequent route labels of the
line, value_counts().head(2). -/
def main_routes_of_line (line : Nat) (data : List Row) : List String :=
  (sortByCountDesc (lineVals line data) (firstDedup (lineVals line data))).take 2

/-- The body of the aggregation loop of measure_of_delay_line: the
route's aggregate delay, divided by its stop count when per_stop. -/
def measureBody (data : List Row) (which_holdup : String)
    (absolute per_stop : Bool) (route : String) : Option ℚ :=
  (delay_along_route route data which_holdup absolute).bind (fun num =>
    (number_of_stops route data).map (fun den =>
      if per_stop then num / (den : ℚ) else num))

/-- The aggregation loop of measure_of_delay_line, exactly as written:
append the first route's measure and return sum/len from inside the
loop body; a loop over no routes falls through (Python returns None). -/
def measureLoop (f : String → Option ℚ) : List String → List ℚ → Option ℚ
  | [], _ => none
  | route :: _, measures =>
    match f route with
    | none => none
    | some m =>
      some ((measures ++ [m]).sum / ((measures ++ [m]).length : ℚ))

/-- measure_of_delay_line. -/
def measure_of_delay_line (line : Nat) (data : List Row)
    (which_holdup : String) (absolute per_stop : Bool) : Option ℚ :=
  measureLoop (measureBody data which_holdup absolute per_stop)
    (main_routes_of_line line data) []

/-- Round-half-to-even to an integer (the tie rule of Python's round). -/
def roundHalfEven (q : ℚ) : ℤ :=
  if q - ⌊q⌋ < 1 / 2 then ⌊q⌋
  else if 1 / 2 < q - ⌊q⌋ then ⌊q⌋ + 1
  else if ⌊q⌋ % 2 = 0 then ⌊q⌋ else ⌊q⌋ + 1

/-- Python round(x, 2). -/
def pyRound2 (q : ℚ) : ℚ := ((roundHalfEven (q * 100) : ℤ) : ℚ) / 100

/-- freq_major_delays_route: keep the route's rows taken at the
second-to-last element of the linearized stop sequence, scale the
cutoff by the sequence length when per_stop, count the rows whose
delay_after_trajectory exceeds the threshold (in absolute value, for
"deviation"), and return (count, major count, rounded percentage).
Undefined (`none`) when stops_on_route fails, when the stop sequence
has fewer than two elements (IndexError on stops[-2]) or when there
are no observations (ZeroDivisionError). -/
def freq_major_delays_route (route : String) (data : List Row) (cutoff : ℚ)
    (per_stop : Bool) (what : String) : Option (Nat × Nat × ℚ) :=
  match stops_on_route route data with
  | some (TravResult.ok stops) =>
    if h2 : 2 ≤ stops.length then
      let penultimate := stops.get ⟨stops.length - 2, by omega⟩
      let df := (routeRows route data).filter (fun r => r.halt_kurz == penultimate)
      let threshold := if per_stop then cutoff * (stops.length : ℚ) else cutoff
      let major :=
        if what == "deviation" then
          df.filter (fun r => decide (threshold < r.delay_after_trajectory) ||
            decide (r.delay_after_trajectory < -threshold))
        else
          df.filter (fun r => decide (threshold < r.delay_after_trajectory))
      if df.length = 0 then none
      else some (df.length, major.length,
        pyRound2 (((major.length : ℚ) / (df.length : ℚ)) * 100))
    else none
  | _ => none

/-- Python str.replace(pat, ""), single left-to-right pass over the
source, continuing after each removed occurrence; driven by a fuel
that starts at the source length (one unit per emitted or removed
position, so the fuel never runs out before the source does). -/
def replaceAllFuel (pat : List Char) : Nat → List Char → List Char
  | 0, s => s
  | _ + 1, [] => []
  | n + 1, c :: cs =>
    if pat.isPrefixOf (c :: cs) && !pat.isEmpty then
      replaceAllFuel pat n ((c :: cs).drop pat.length)
    else c :: replaceAllFuel pat n cs

/-- Remove every occurrence of pat. -/
def replaceAll (pat s : List Char) : List Char := replaceAllFuel pat s.length s

/-- The two chained replacements applied to a long stop name:
str.replace("Zürich, ","") then str.replace("Zürich,",""). -/
def stripZurich (s : List Char) : List Char :=
  replaceAll (String.toList ("Zürich,")) (replaceAll (String.toList ("Zürich, ")) s)

/-- The processed long name of a row. -/
def stripName (s : String) : String := String.mk (stripZurich s.toList)

/-- Series.drop_duplicates(keep="first"): keep each (code, name) entry
whose name value has not been seen before. -/
def valueDedupAux (seen : List String) : List (String × String) → List (String × String)
  | [] => []
  | p :: ps =>
    if seen.contains p.2 then valueDedupAux seen ps
    else p :: valueDedupAux (p.2 :: seen) ps

/-- Value-level deduplication keeping first occurrences. -/
def valueDedup (l : List (String × String)) : List (String × String) :=
  valueDedupAux [] l

/-- What Series.loc returns on a possibly duplicate-labeled index: a
scalar when exactly one entry carries the label, a sub-Series of all
matching values when several do. -/
inductive LocResult where
  | scalar (value : String)
  | series (values : List String)
deriving DecidableEq, Repr

/-- convert_short_to_long: index the long names by short code, strip
the city prefix occurrences, drop duplicate values, look the code up
with .loc: no surviving entry with that label is a KeyError (`none`),
exactly one yields its value as a scalar, several yield the sub-Series
of their values in index order. -/
def convert_short_to_long (name : String) (data : List Row) : Option LocResult :=
  match (valueDedup (data.map (fun r => (r.halt_kurz, stripName r.halt_lang)))).filter
      (fun p => p.1 == name) with
  | [] => none
  | [p] => some (LocResult.scalar p.2)
  | ps => some (LocResult.series (ps.map Prod.snd))

/-- Bool test that a character list begins with the given pattern. -/
def beginsWith : List Char → List Char → Bool
  | [], _ => true
  | _ :: _, [] => false
  | p :: ps, c :: cs => p == c && beginsWith ps cs

/-- Modelled from the spec: the rejected abs-then-mean aggregation the
design document contrasts delay_along_route with — per stop, the mean
of the absolute values of the raw per-trip total holdups, summed along
the linearized route. -/
def absThenMeanTotal (route : String) (data : List Row) : Option ℚ :=
  match stops_on_route route data with
  | some (TravResult.ok stops) =>
    some ((stops.map (fun s => meanOf
      (((routeRows route data).filter (fun r => r.halt_kurz_von1 == s)).map
        (fun r => |r.total_holdup|)))).sum)
  | _ => none

/-- A small synthetic observation table: line 11 runs one route
"A - C" with three observations of the segment A→B and one of B→C. -/
def exData : List Row :=
  [ ⟨11, "A - C", "A", "La", "A", "B", 1, 2, 3, 10⟩,
    ⟨11, "A - C", "A", "La", "A", "B", 3, 0, 3, 1⟩,
    ⟨11, "A - C", "A", "La", "A", "B", 2, 1, 3, 2⟩,
    ⟨11, "A - C", "B", "Lb", "B", "C", 4, 1, 5, 0⟩ ]

/-- A table whose only route has a per-stop mean of 0 total holdup
built from raw holdups +1 and -1 (mean-then-abs gives 0, abs-then-mean
gives 1). -/
def c8Data : List Row :=
  [ ⟨12, "P - R", "P", "Lp", "P", "Q", 1, 0, 1, 0⟩,
    ⟨12, "P - R", "P", "Lp", "P", "Q", -1, 0, -1, 0⟩,
    ⟨12, "P - R", "Q", "Lq", "Q", "R", 0, 0, 0, 0⟩ ]

/-- A table with row-wise additive holdups whose at-stop and
on-trajectory means cancel (+1 and -1 at the same stop), so absolute
aggregation is not additive. -/
def c4AbsData : List Row :=
  [ ⟨13, "U - W", "U", "Lu", "U", "V", 1, -1, 0, 0⟩,
    ⟨13, "U - W", "V", "Lv", "V", "W", 0, 0, 0, 0⟩ ]

/-- A route whose successor mapping sends A to itself: the while-loop
of stops_on_route never reaches the final stop B. -/
def cycData : List Row :=
  [ ⟨1, "A - B", "A", "La", "A", "A", 0, 0, 0, 0⟩ ]

/-- First row of the resolver table: code A, long name X. -/
def c9r1 : Row := ⟨1, "", "A", "X", "", "", 0, 0, 0, 0⟩

/-- Second row: a different code B carrying the same long name X. -/
def c9r2 : Row := ⟨1, "", "B", "X", "", "", 0, 0, 0, 0⟩

/-- Third row: code C with a contrived long name in which removing the
city-prefix occurrences recreates a leading "Zürich, ". -/
def c9r3 : Row := ⟨1, "", "C", "ZürZürich,ich, X", "", "", 0, 0, 0, 0⟩

/-- The resolver example table. -/
def c9Data : List Row := [c9r1, c9r2, c9r3]

/-- Inversion of one step of the traversal loop. -/
theorem travel_succ_inv (succ : String → Option String) (last : String)
    (n : Nat) (c : String) (l : List String)
    (h : travel succ last (n + 1) c = some (TravResult.ok l)) :
    (c = last ∧ l = []) ∨
      (c ≠ last ∧ ∃ nxt rest, succ c = some nxt ∧
        travel succ last n nxt = some (TravResult.ok rest) ∧ l = c :: rest) := by
  rw [travel] at h
  split at h
  · next hc =>
      exact Or.inl ⟨hc, ((TravResult.ok.inj (Option.some.inj h)).symm)⟩
  · next hc =>
      refine Or.inr ⟨hc, ?_⟩
      split at h
      · exact absurd (Option.some.inj h) (by simp)
      · next nxt hsucc =>
          split at h
          · exact absurd h (by simp)
          · next rest hrec =>
              exact ⟨nxt, rest, hsucc, hrec, (TravResult.ok.inj (Option.some.inj h)).symm⟩
          · next s hrec => exact absurd (Option.some.inj h) (by simp)

theorem travel_ok_shape (succ : String → Option String) (last : String)
    (n : Nat) (c : String) (l : List String)
    (h : travel succ last n c = some (TravResult.ok l)) :
    l = [] ∨ ∃ t, l = c :: t := by
  cases n with
  | zero => exact absurd h (by simp [travel])
  | succ m =>
    rcases travel_succ_inv succ last m c l h with ⟨_, hl⟩ | ⟨_, _, rest, _, _, hl⟩
    · exact Or.inl hl
    · exact Or.inr ⟨rest, hl⟩

theorem travel_ok_head (succ : String → Option String) (last : String)
    (n : Nat) (c : String) (l : List String)
    (h : travel succ last n c = some (TravResult.ok l)) (hne : c ≠ last) :
    ∃ t, l = c :: t := by
  cases n with
  | zero => exact absurd h (by simp [travel])
  | succ m =>
    rcases travel_succ_inv succ last m c l h with ⟨hc, _⟩ | ⟨_, _, rest, _, _, hl⟩
    · exact absurd hc hne
    · exact ⟨rest, hl⟩

theorem travel_ok_not_mem (succ : String → Option String) (last : String) :
    ∀ (n : Nat) (c : String) (l : List String),
      travel succ last n c = some (TravResult.ok l) → last ∉ l := by
  intro n
  induction n with
  | zero => intro c l h; exact absurd h (by simp [travel])
  | succ m ih =>
    intro c l h
    rcases travel_succ_inv succ last m c l h with ⟨_, hl⟩ | ⟨hc, nxt, rest, _, hrec, hl⟩
    · subst hl; simp
    · subst hl
      intro hmem
      rcases List.mem_cons.mp hmem with hceq | hmemr
      · exact hc hceq.symm
      · exact ih nxt rest hrec hmemr

theorem travel_ok_chain (succ : String → Option String) (last : String) :
    ∀ (n : Nat) (c : String) (l : List String),
      travel succ last n c = some (TravResult.ok l) →
      List.Chain' (fun x y => succ x = some y) l := by
  intro n
  induction n with
  | zero => intro c l h; exact absurd h (by simp [travel])
  | succ m ih =>
    intro c l h
    rcases travel_succ_inv succ last m c l h with ⟨_, hl⟩ | ⟨_, nxt, rest, hsucc, hrec, hl⟩
    · subst hl; exact List.chain'_nil
    · subst hl
      rw [List.chain'_cons']
      refine ⟨?_, ih nxt rest hrec⟩
      intro y hy
      rcases travel_ok_shape succ last m nxt rest hrec with hnil | ⟨t, ht⟩
      · subst hnil; simp at hy
      · subst ht
        simp at hy
        subst hy
        exact hsucc

theorem travel_mono (succ : String → Option String) (last : String) :
    ∀ (n m : Nat) (c : String) (r : TravResult), n ≤ m →
      travel succ last n c = some r → travel succ last m c = some r := by
  intro n
  induction n with
  | zero => intro m c r _ h; exact absurd h (by simp [travel])
  | succ k ih =>
    intro m c r hle h
    cases m with
    | zero => omega
    | succ m' =>
      rw [travel] at h ⊢
      by_cases hc : c = last
      · rw [if_pos hc] at h ⊢; exact h
      · rw [if_neg hc] at h ⊢
        cases hsucc : succ c with
        | none => simp only [hsucc] at h ⊢; exact h
        | some nxt =>
          simp only [hsucc] at h ⊢
          cases hrec : travel succ last k nxt with
          | none => simp only [hrec] at h; exact absurd h (by simp)
          | some r2 =>
            simp only [hrec] at h
            have hih := ih m' nxt r2 (by omega) hrec
            cases r2 with
            | ok rest => simp only [hih]; exact h
            | keyError s => simp only [hih]; exact h

theorem travel_det (succ : String → Option String) (last : String)
    (n m : Nat) (c : String) (r1 r2 : TravResult)
    (h1 : travel succ last n c = some r1) (h2 : travel succ last m c = some r2) :
    r1 = r2 := by
  rcases Nat.le_total n m with hle | hle
  · have := travel_mono succ last n m c r1 hle h1
    exact Option.some.inj (this.symm.trans h2)
  · have := travel_mono succ last m n c r2 hle h2
    exact Option.some.inj (h1.symm.trans this)

theorem travel_ok_suffix (succ : String → Option String) (last : String) :
    ∀ (l1 : List String) (n : Nat) (c x : String) (l2 : List String),
      travel succ last n c = some (TravResult.ok (l1 ++ x :: l2)) →
      ∃ m, travel succ last m x = some (TravResult.ok (x :: l2)) := by
  intro l1
  induction l1 with
  | nil =>
    intro n c x l2 h
    simp only [List.nil_append] at h
    rcases travel_ok_shape succ last n c (x :: l2) h with hnil | ⟨t, ht⟩
    · exact absurd hnil (by simp)
    · obtain ⟨hx, _⟩ := List.cons.inj ht
      subst hx
      exact ⟨n, h⟩
  | cons a l1x ih =>
    intro n c x l2 h
    cases n with
    | zero => exact absurd h (by simp [travel])
    | succ m =>
      rcases travel_succ_inv succ last m c (a :: (l1x ++ x :: l2)) (by simpa using h) with
        ⟨_, hl⟩ | ⟨_, nxt, rest, _, hrec, hl⟩
      · exact absurd hl (by simp)
      · obtain ⟨_, hrest⟩ := List.cons.inj hl
        rw [← hrest] at hrec
        exact ih m nxt x l2 hrec

theorem travel_ok_nodup (succ : String → Option String) (last : String) :
    ∀ (n : Nat) (c : String) (l : List String),
      travel succ last n c = some (TravResult.ok l) → l.Nodup := by
  intro n
  induction n with
  | zero => intro c l h; exact absurd h (by simp [travel])
  | succ m ih =>
    intro c l h
    rcases travel_succ_inv succ last m c l h with ⟨_, hl⟩ | ⟨_, nxt, rest, _, hrec, hl⟩
    · subst hl; exact List.nodup_nil
    · subst hl
      rw [List.nodup_cons]
      refine ⟨?_, ih nxt rest hrec⟩
      intro hmem
      rcases List.append_of_mem hmem with ⟨s, t, hst⟩
      have hfull : travel succ last (m + 1) c =
          some (TravResult.ok ((c :: s) ++ c :: t)) := by
        rw [h, hst]
        simp
      rcases travel_ok_suffix succ last (c :: s) (m + 1) c c t hfull with ⟨m2, h2⟩
      have hdet := travel_det succ last (m + 1) m2 c
        (TravResult.ok (c :: rest)) (TravResult.ok (c :: t)) h h2
      have hrt : rest = t := (List.cons.inj (TravResult.ok.inj hdet)).2
      rw [hrt] at hst
      have hlen := congrArg List.length hst
      simp only [List.length_append, List.length_cons] at hlen
      omega

theorem travel_selfloop (succ : String → Option String) (last c : String)
    (hne : c ≠ last) (hs : succ c = some c) :
    ∀ n, travel succ last n c = none := by
  intro n
  induction n with
  | zero => rfl
  | succ k ih =>
    rw [travel, if_neg hne]
    simp only [hs, ih]

/-- Claim C2: whenever a line has at least one canonical route, the
aggregation loop of measure_of_delay_line returns from inside its first
iteration, so the result is exactly the first (most frequent) route's
delay_along_route, divided by that route's stop count when per_stop,
regardless of the remaining routes. -/
theorem measure_of_delay_line_first_route (line : Nat) (data : List Row)
    (which_holdup : String) (absolute per_stop : Bool) (r0 : String) (rest : List String)
    (h : main_routes_of_line line data = r0 :: rest) :
    measure_of_delay_line line data which_holdup absolute per_stop =
      (delay_along_route r0 data which_holdup absolute).bind (fun num =>
        (number_of_stops r0 data).map (fun den =>
          if per_stop then num / (den : ℚ) else num)) := by
  unfold measure_of_delay_line
  rw [h]
  show measureLoop (measureBody data which_holdup absolute per_stop) (r0 :: rest) [] =
    measureBody data which_holdup absolute per_stop r0
  cases hf : measureBody data which_holdup absolute per_stop r0 with
  | none => simp [measureLoop, hf]
  | some m => simp [measureLoop, hf]

/-- Claim C3: the contributions table is indexed exactly by the
linearized stop sequence, in that order and with that length, and a
stop's row is the missing-value row precisely when the route has no
observation originating at that stop. -/
theorem contributions_spec (route : String) (data : List Row)
    (tbl : List (String × Option StopMeans)) (l : List String)
    (hc : contributions route data = some tbl)
    (hs : stops_on_route route data = some (TravResult.ok l)) :
    tbl.map Prod.fst = l ∧ tbl.length = l.length ∧
      ∀ s o, (s, o) ∈ tbl →
        (o = none ↔ ∀ r ∈ routeRows route data, r.halt_kurz_von1 ≠ s) := by
  unfold contributions at hc
  rw [hs] at hc
  have hc2 : (if (((keyList route data).map Prod.fst).Nodup) then
      some (l.map (fun s =>
        (s, ((grouped route data).find? (fun p => p.1.1 == s)).map Prod.snd)))
    else none) = some tbl := hc
  split at hc2
  case isFalse => exact absurd hc2 (by simp)
  case isTrue hnd =>
    have htbl : tbl = l.map (fun s =>
        (s, ((grouped route data).find? (fun p => p.1.1 == s)).map Prod.snd)) :=
      (Option.some.inj hc2).symm
    subst htbl
    refine ⟨by simp [Function.comp_def], by simp, ?_⟩
    intro s o hmem
    simp only [List.mem_map] at hmem
    obtain ⟨s2, _, heq⟩ := hmem
    obtain ⟨hss, hoo⟩ := Prod.mk.injEq .. ▸ heq
    subst hss
    subst hoo
    rw [Option.map_eq_none', List.find?_eq_none]
    constructor
    · intro hnone r hr hcon
      have hkmem : (r.halt_kurz_von1, r.halt_lang) ∈ keyList route data := by
        unfold keyList
        rw [List.mem_dedup]
        exact List.mem_map.mpr ⟨r, hr, rfl⟩
      have hgm : ((r.halt_kurz_von1, r.halt_lang),
          meansFor route data (r.halt_kurz_von1, r.halt_lang)) ∈ grouped route data := by
        unfold grouped
        exact List.mem_map.mpr ⟨_, hkmem, rfl⟩
      exact hnone _ hgm (by simp [hcon])
    · intro hall p hp
      unfold grouped at hp
      obtain ⟨k, hk, hpk⟩ := List.mem_map.mp hp
      unfold keyList at hk
      rw [List.mem_dedup] at hk
      obtain ⟨r, hr, hkr⟩ := List.mem_map.mp hk
      intro hbeq
      rw [← hpk, ← hkr] at hbeq
      simp only [beq_iff_eq] at hbeq
      exact hall r hr hbeq

theorem sum_map_add {α : Type} (g : List α) (f1 f2 : α → ℚ) :
    (g.map (fun x => f1 x + f2 x)).sum = (g.map f1).sum + (g.map f2).sum := by
  induction g with
  | nil => simp
  | cons a t ih => simp [ih]; ring

theorem contributions_mem_means (route : String) (data : List Row)
    (tbl : List (String × Option StopMeans))
    (hc : contributions route data = some tbl) :
    ∀ s m, (s, some m) ∈ tbl → ∃ k, k ∈ keyList route data ∧ m = meansFor route data k := by
  unfold contributions at hc
  rcases hsr : stops_on_route route data with _ | tr
  · rw [hsr] at hc; exact absurd hc (by simp)
  · cases tr with
    | keyError s => rw [hsr] at hc; exact absurd hc (by simp)
    | ok stops =>
      rw [hsr] at hc
      have hc2 : (if (((keyList route data).map Prod.fst).Nodup) then
          some (stops.map (fun s =>
            (s, ((grouped route data).find? (fun p => p.1.1 == s)).map Prod.snd)))
        else none) = some tbl := hc
      split at hc2
      case isFalse => exact absurd hc2 (by simp)
      case isTrue hnd =>
        have htbl : tbl = stops.map (fun s =>
            (s, ((grouped route data).find? (fun p => p.1.1 == s)).map Prod.snd)) :=
          (Option.some.inj hc2).symm
        subst htbl
        intro s m hmem
        simp only [List.mem_map] at hmem
        obtain ⟨s2, _, heq⟩ := hmem
        obtain ⟨hss, hoo⟩ := Prod.mk.injEq .. ▸ heq
        subst hss
        rcases hfind : (grouped route data).find? (fun p => p.1.1 == s2) with _ | pr
        · rw [hfind] at hoo; exact absurd hoo (by simp)
        · rw [hfind] at hoo
          have hprm : pr ∈ grouped route data := List.mem_of_find?_eq_some hfind
          unfold grouped at hprm
          obtain ⟨k, hk, hpk⟩ := List.mem_map.mp hprm
          refine ⟨k, hk, ?_⟩
          have hm : pr.2 = m := Option.some.inj hoo
          rw [← hm, ← hpk]

theorem meansFor_total_eq (route : String) (data : List Row) (k : String × String)
    (hrow : ∀ r ∈ routeRows route data,
      r.total_holdup = r.holdup_stop + r.holdup_trajectory) :
    (meansFor route data k).total_holdup =
      (meansFor route data k).holdup_stop + (meansFor route data k).holdup_trajectory := by
  unfold meansFor meanOf
  have hmap : (groupFor route data k).map Row.total_holdup
      = (groupFor route data k).map (fun r => r.holdup_stop + r.holdup_trajectory) := by
    apply List.map_congr_left
    intro r hr
    exact hrow r (List.mem_of_mem_filter hr)
  simp only [hmap, sum_map_add, List.length_map]
  rw [add_div]

theorem delay_some (route : String) (data : List Row)
    (which_holdup : String) (absolute : Bool)
    (tbl : List (String × Option StopMeans))
    (hc : contributions route data = some tbl) :
    delay_along_route route data which_holdup absolute =
      some ((tbl.map (fun p => cellVal absolute (holdupIndex which_holdup) p.2)).sum) := by
  unfold delay_along_route
  rw [hc]
  rfl

/-- Claim C4: when the route's observations satisfy
total_holdup = holdup_stop + holdup_trajectory row-wise, the
non-absolute aggregate delay is additive across the two holdup kinds;
and (second conjunct) the additivity can fail in absolute mode, as the
route "U - W" of c4AbsData shows (0 versus 1 + 1). -/
theorem delay_along_route_additivity :
    (∀ route data, (∀ r ∈ routeRows route data,
        r.total_holdup = r.holdup_stop + r.holdup_trajectory) →
      ∀ tbl, contributions route data = some tbl →
        ∃ t s j, delay_along_route route data ("total") false = some t ∧
          delay_along_route route data ("at_stop") false = some s ∧
          delay_along_route route data ("on_trajectory") false = some j ∧
          t = s + j) ∧
    ((∀ r ∈ routeRows ("U - W") c4AbsData,
        r.total_holdup = r.holdup_stop + r.holdup_trajectory) ∧
      delay_along_route ("U - W") c4AbsData ("total") true = some 0 ∧
      delay_along_route ("U - W") c4AbsData ("at_stop") true = some 1 ∧
      delay_along_route ("U - W") c4AbsData ("on_trajectory") true = some 1 ∧
      (0 : ℚ) ≠ 1 + 1) := by
  constructor
  · intro route data hrow tbl hc
    refine ⟨_, _, _, delay_some route data ("total") false tbl hc,
      delay_some route data ("at_stop") false tbl hc,
      delay_some route data ("on_trajectory") false tbl hc, ?_⟩
    have hpt : ∀ p ∈ tbl, cellVal false (holdupIndex ("total")) p.2 =
        cellVal false (holdupIndex ("at_stop")) p.2 +
          cellVal false (holdupIndex ("on_trajectory")) p.2 := by
      intro p hp
      rcases hop : p.2 with _ | m
      · simp [cellVal, holdupIndex]
      · have hpm : (p.1, some m) ∈ tbl := by
          rw [← hop]
          simpa using hp
        obtain ⟨k, hk, hm⟩ := contributions_mem_means route data tbl hc p.1 m hpm
        subst hm
        simp only [cellVal, holdupIndex, colSel]
        norm_num
        exact meansFor_total_eq route data k hrow
    calc (tbl.map (fun p => cellVal false (holdupIndex ("total")) p.2)).sum
        = (tbl.map (fun p => cellVal false (holdupIndex ("at_stop")) p.2 +
            cellVal false (holdupIndex ("on_trajectory")) p.2)).sum := by
          exact congrArg List.sum (List.map_congr_left hpt)
      _ = _ := sum_map_add tbl _ _
  · refine ⟨by with_unfolding_all decide, by with_unfolding_all decide,
      by with_unfolding_all decide, by with_unfolding_all decide, by norm_num⟩

theorem freq_unfold (route : String) (data : List Row) (cutoff : ℚ)
    (per_stop : Bool) (what : String) (stops : List String)
    (hsr : stops_on_route route data = some (TravResult.ok stops)) :
    freq_major_delays_route route data cutoff per_stop what =
      (if h2 : 2 ≤ stops.length then
        let penultimate := stops.get ⟨stops.length - 2, by omega⟩
        let df := (routeRows route data).filter (fun r => r.halt_kurz == penultimate)
        let threshold := if per_stop then cutoff * (stops.length : ℚ) else cutoff
        let major :=
          if what == "deviation" then
            df.filter (fun r => decide (threshold < r.delay_after_trajectory) ||
              decide (r.delay_after_trajectory < -threshold))
          else
            df.filter (fun r => decide (threshold < r.delay_after_trajectory))
        if df.length = 0 then none
        else some (df.length, major.length,
          pyRound2 (((major.length : ℚ) / (df.length : ℚ)) * 100))
      else none) := by
  unfold freq_major_delays_route
  rw [hsr]

set_option maxRecDepth 8000 in
/-- Claim C6 (amended): whenever freq_major_delays_route returns
(total, major, percentage), total is positive (a zero count raises
instead), major never exceeds total, and the percentage equals
100 * major / total rounded to two decimal places (round half to
even), rather than the exact quotient the claim states. -/
theorem freq_major_delays_route_spec (route : String) (data : List Row)
    (cutoff : ℚ) (per_stop : Bool) (what : String) (t m : Nat) (p : ℚ)
    (h : freq_major_delays_route route data cutoff per_stop what = some (t, m, p)) :
    0 < t ∧ m ≤ t ∧ p = pyRound2 (100 * (m : ℚ) / (t : ℚ)) := by
  rcases hsr : stops_on_route route data with _ | tr
  · rw [freq_major_delays_route, hsr] at h
    exact absurd h (by simp)
  · cases tr with
    | keyError s =>
      rw [freq_major_delays_route, hsr] at h
      exact absurd h (by simp)
    | ok stops =>
      rw [freq_unfold route data cutoff per_stop what stops hsr] at h
      split at h
      case isFalse => exact absurd h (by simp)
      case isTrue h2 =>
        dsimp only [] at h
        split at h
        case isTrue hz => exact absurd h (by simp)
        case isFalse hz =>
          obtain ⟨ht, hmp⟩ := Prod.mk.injEq .. ▸ Option.some.inj h
          obtain ⟨hm, hp⟩ := Prod.mk.injEq .. ▸ hmp
          refine ⟨by omega, ?_, ?_⟩
          · rw [← ht, ← hm]
            split
            · exact List.length_filter_le _ _
            · exact List.length_filter_le _ _
          · rw [← hp, ← ht, ← hm]
            congr 1
            ring

theorem decide_or_abs (th d : ℚ) :
    (decide (th < d) || decide (d < -th)) = decide (th < |d|) := by
  rw [← Bool.decide_or]
  exact decide_eq_decide.mpr
    ⟨fun h => lt_abs.mpr (h.imp id fun hh => lt_neg.mp hh),
     fun h => (lt_abs.mp h).imp id fun hh => lt_neg.mpr hh⟩

theorem filter_or_abs (l : List Row) (th : ℚ) :
    l.filter (fun r => decide (th < r.delay_after_trajectory) ||
      decide (r.delay_after_trajectory < -th)) =
    l.filter (fun r => decide (th < |r.delay_after_trajectory|)) := by
  have hfe : (fun r : Row => decide (th < r.delay_after_trajectory) ||
      decide (r.delay_after_trajectory < -th)) =
      (fun r : Row => decide (th < |r.delay_after_trajectory|)) :=
    funext fun r => decide_or_abs th r.delay_after_trajectory
  rw [hfe]

/-- Claim C7: freq_major_delays_route counts exactly the route's
observations taken at the second-to-last element of the linearized
stop sequence, against the cutoff scaled by the sequence length when
per_stop (unscaled otherwise), counting an observation as major in
"deviation" mode when the absolute value of its delay exceeds the
threshold and in any other mode when its signed delay does. -/
theorem freq_major_delays_route_counts (route : String) (data : List Row)
    (cutoff : ℚ) (per_stop : Bool) (what : String) (stops : List String)
    (t m : Nat) (p : ℚ) (penult : String)
    (hsr : stops_on_route route data = some (TravResult.ok stops))
    (hf : freq_major_delays_route route data cutoff per_stop what = some (t, m, p))
    (hp : stops.get? (stops.length - 2) = some penult) :
    2 ≤ stops.length ∧
      t = ((routeRows route data).filter (fun r => r.halt_kurz == penult)).length ∧
      m = (((routeRows route data).filter (fun r => r.halt_kurz == penult)).filter
        (fun r => if what == "deviation" then
            decide ((if per_stop then cutoff * (stops.length : ℚ) else cutoff) <
              |r.delay_after_trajectory|)
          else
            decide ((if per_stop then cutoff * (stops.length : ℚ) else cutoff) <
              r.delay_after_trajectory))).length := by
  rw [freq_unfold route data cutoff per_stop what stops hsr] at hf
  split at hf
  case isFalse h2 => exact absurd hf (by simp)
  case isTrue h2 =>
    dsimp only [] at hf
    split at hf
    case isTrue hz => exact absurd hf (by simp)
    case isFalse hz =>
      obtain ⟨ht, hmp⟩ := Prod.mk.injEq .. ▸ Option.some.inj hf
      obtain ⟨hm, hpp⟩ := Prod.mk.injEq .. ▸ hmp
      have hpen : stops.get ⟨stops.length - 2, by omega⟩ = penult := by
        have hg := List.get?_eq_get (l := stops) (n := stops.length - 2) (by omega)
        rw [hg] at hp
        exact Option.some.inj hp
      refine ⟨h2, ?_, ?_⟩
      · rw [← ht, hpen]
      · rw [← hm, hpen]
        cases hwd : (what == "deviation") with
        | false => simp only [hwd, Bool.false_eq_true, if_false]
        | true =>
          simp only [hwd, if_true]
          rw [filter_or_abs]

theorem sum_cellval_abs (tbl : List (String × Option StopMeans)) :
    (tbl.map (fun p => cellVal true (holdupIndex ("total")) p.2)).sum =
      ((tbl.filterMap (fun p => p.2)).map (fun mn => |mn.total_holdup|)).sum := by
  have hidx : holdupIndex ("total") = 2 := rfl
  rw [hidx]
  induction tbl with
  | nil => simp
  | cons p t ih =>
    rcases hop : p.2 with _ | m
    · simp only [List.map_cons, List.sum_cons, List.filterMap_cons, hop]
      rw [show cellVal true 2 none = 0 from rfl, ih, zero_add]
    · simp only [List.map_cons, List.sum_cons, List.filterMap_cons, hop, List.map_cons]
      rw [ih]
      rfl

/-- Claim C8: in absolute mode delay_along_route sums the absolute
values of the per-stop averages of the contributions table
(mean-then-abs); the second conjunct separates this from the rejected
abs-then-mean reading on the route "P - R" of c8Data (0 versus 1). -/
theorem delay_along_route_mean_then_abs :
    (∀ route data tbl, contributions route data = some tbl →
      delay_along_route route data ("total") true =
        some (((tbl.filterMap (fun p => p.2)).map (fun mn => |mn.total_holdup|)).sum)) ∧
    (delay_along_route ("P - R") c8Data ("total") true = some 0 ∧
      absThenMeanTotal ("P - R") c8Data = some 1 ∧ ((0 : ℚ) ≠ 1)) := by
  constructor
  · intro route data tbl hc
    rw [delay_some route data ("total") true tbl hc, sum_cellval_abs]
  · exact ⟨by with_unfolding_all decide, by with_unfolding_all decide, by norm_num⟩

theorem valueDedupAux_sub (l : List (String × String)) :
    ∀ (seen : List String) (p : String × String), p ∈ valueDedupAux seen l → p ∈ l := by
  induction l with
  | nil => intro seen p hp; exact absurd hp (by simp [valueDedupAux])
  | cons a t ih =>
    intro seen p hp
    rw [valueDedupAux] at hp
    split at hp
    · exact List.mem_cons_of_mem a (ih seen p hp)
    · rcases List.mem_cons.mp hp with h | h
      · exact h ▸ List.mem_cons_self a t
      · exact List.mem_cons_of_mem a (ih _ p h)

theorem valueDedupAux_filter_nil (p : String × String) :
    ∀ (l : List (String × String)) (seen : List String),
      (∀ q ∈ l, q.1 = p.1 → q.2 = p.2) → p.2 ∈ seen →
      (valueDedupAux seen l).filter (fun q => q.1 == p.1) = [] := by
  intro l
  induction l with
  | nil => intro seen _ _; rfl
  | cons a t ih =>
    intro seen hsame hmem
    rw [valueDedupAux]
    split
    · exact ih seen (fun q hq => hsame q (List.mem_cons_of_mem a hq)) hmem
    · next hnc =>
        have hane : a.1 ≠ p.1 := by
          intro hcon
          have ha2 : a.2 = p.2 := hsame a (List.mem_cons_self a t) hcon
          exact hnc (List.contains_iff_exists_mem_beq.mpr ⟨a.2, ha2.symm ▸ hmem, by simp⟩)
        rw [List.filter_cons_of_neg (by
          simp only [beq_iff_eq]
          exact hane)]
        exact ih (a.2 :: seen) (fun q hq => hsame q (List.mem_cons_of_mem a hq))
          (List.mem_cons_of_mem _ hmem)

theorem valueDedupAux_filter_single (p : String × String) :
    ∀ (l1 : List (String × String)) (seen : List String) (l2 : List (String × String)),
      p.2 ∉ seen → (∀ q ∈ l1, q.1 ≠ p.1) → (∀ q ∈ l1, q.2 ≠ p.2) →
      (∀ q ∈ l2, q.1 = p.1 → q.2 = p.2) →
      (valueDedupAux seen (l1 ++ p :: l2)).filter (fun q => q.1 == p.1) = [p] := by
  intro l1
  induction l1 with
  | nil =>
    intro seen l2 hseen _ _ hsame
    rw [List.nil_append, valueDedupAux]
    have hc : seen.contains p.2 = false := by
      rw [Bool.eq_false_iff]
      intro hct
      obtain ⟨b, hb, hbeq⟩ := List.contains_iff_exists_mem_beq.mp hct
      rw [beq_iff_eq] at hbeq
      exact hseen (hbeq ▸ hb)
    rw [hc]
    simp only [Bool.false_eq_true, if_false]
    rw [List.filter_cons_of_pos (by simp)]
    rw [valueDedupAux_filter_nil p l2 (p.2 :: seen) hsame (List.mem_cons_self _ _)]
  | cons a t ih =>
    intro seen l2 hseen hcode hval hsame
    rw [List.cons_append, valueDedupAux]
    split
    · exact ih seen l2 hseen
        (fun q hq => hcode q (List.mem_cons_of_mem a hq))
        (fun q hq => hval q (List.mem_cons_of_mem a hq)) hsame
    · rw [List.filter_cons_of_neg (by
        simp only [beq_iff_eq]
        exact hcode a (List.mem_cons_self a t))]
      exact ih (a.2 :: seen) l2
        (by
          intro hmem
          rcases List.mem_cons.mp hmem with h | h
          · exact hval a (List.mem_cons_self a t) h.symm
          · exact hseen h)
        (fun q hq => hcode q (List.mem_cons_of_mem a hq))
        (fun q hq => hval q (List.mem_cons_of_mem a hq)) hsame

set_option maxRecDepth 8000 in
/-- Claim C9 (amended): a short code absent from the table always
fails with a lookup miss; a present code resolves, as a scalar, to its
first row's long name with every occurrence of "Zürich, " and then
"Zürich," removed, provided no earlier row carries the same code, no
earlier row's processed name collides with it (value-level
deduplication drops later rows with an already-seen name, so such a
code fails instead), and every later row with the same code carries
the same processed name (otherwise .loc on the duplicate-labeled index
returns a multi-element sub-Series rather than a scalar); removal of
occurrences anywhere can leave a recreated city prefix in contrived
names. -/
theorem convert_short_to_long_spec (name : String) (data : List Row) :
    ((∀ r ∈ data, r.halt_kurz ≠ name) → convert_short_to_long name data = none) ∧
    (∀ pre row post, data = pre ++ row :: post → row.halt_kurz = name →
      (∀ q ∈ pre, q.halt_kurz ≠ name) →
      (∀ q ∈ pre, stripName q.halt_lang ≠ stripName row.halt_lang) →
      (∀ q ∈ post, q.halt_kurz = name → stripName q.halt_lang = stripName row.halt_lang) →
      convert_short_to_long name data =
        some (LocResult.scalar (stripName row.halt_lang))) := by
  constructor
  · intro hall
    unfold convert_short_to_long valueDedup
    have hnil : ((valueDedupAux []
        (data.map (fun r => (r.halt_kurz, stripName r.halt_lang)))).filter
          (fun p => p.1 == name)) = [] := by
      rw [List.filter_eq_nil_iff]
      intro x hx
      have hxs := valueDedupAux_sub _ [] x hx
      obtain ⟨r, hr, hxr⟩ := List.mem_map.mp hxs
      simp only [beq_iff_eq]
      rw [← hxr]
      exact hall r hr
    rw [hnil]
  · intro pre row post hdata hname hcode hval hsame
    subst hdata
    unfold convert_short_to_long valueDedup
    rw [List.map_append, List.map_cons]
    have hfil := valueDedupAux_filter_single (row.halt_kurz, stripName row.halt_lang)
      (pre.map (fun r => (r.halt_kurz, stripName r.halt_lang))) []
      (post.map (fun r => (r.halt_kurz, stripName r.halt_lang)))
      (by simp)
      (by
        intro q hq
        obtain ⟨r, hr, hqr⟩ := List.mem_map.mp hq
        rw [← hqr]
        exact fun hcon => hcode r hr (hcon.trans hname))
      (by
        intro q hq
        obtain ⟨r, hr, hqr⟩ := List.mem_map.mp hq
        rw [← hqr]
        exact hval r hr)
      (by
        intro q hq
        obtain ⟨r, hr, hqr⟩ := List.mem_map.mp hq
        rw [← hqr]
        intro hq1
        exact hsame r hr (hq1.trans hname))
    rw [← hname, hfil]

/-- Claim C1 (amended): for a route label whose first and third
whitespace tokens A and B differ, every normally returned stop
sequence starts with A, never contains B, and each element except the
last is mapped to the next one by the last-occurrence-wins successor
mapping.  (When A = B the function returns the empty sequence, which
does not start with A; see the counterexample.) -/
theorem stops_on_route_spec (route : String) (data : List Row) (a b : String) (l : List String)
    (ha : (pyTokens route).get? 0 = some a) (hb : (pyTokens route).get? 2 = some b)
    (hab : a ≠ b) (h : stops_on_route route data = some (TravResult.ok l)) :
    l.head? = some a ∧ b ∉ l ∧ List.Chain' (fun x y => succMap route data x = some y) l := by
  unfold stops_on_route at h
  rw [ha, hb] at h
  obtain ⟨t, ht⟩ := travel_ok_head (succMap route data) b (travelFuel data) a l h hab
  exact ⟨by rw [ht]; rfl,
    travel_ok_not_mem (succMap route data) b (travelFuel data) a l h,
    travel_ok_chain (succMap route data) b (travelFuel data) a l h⟩

/-- Claim C1, counterexample to the unamended statement: on the route
label "X - X" the first and third tokens coincide, the loop exits
immediately, and the returned empty sequence does not start with the
first stop. -/
theorem stops_on_route_empty_when_endpoints_equal :
    stops_on_route ("X - X") ([] : List Row) = some (TravResult.ok []) ∧
      ¬ (([] : List String).head? = some ("X")) :=
  ⟨by decide, by decide⟩

set_option maxRecDepth 8000 in
theorem stops_on_route_spec_witness :
    (["A", "B"] : List String).head? = some ("A") ∧ ("C") ∉ (["A", "B"] : List String) ∧
      List.Chain' (fun x y => succMap ("A - C") exData x = some y) ["A", "B"] :=
  stops_on_route_spec ("A - C") exData ("A") ("C") ["A", "B"] (by decide) (by decide)
    (by decide) (by decide)

/-- Claim C10: a normally terminating stops_on_route returns a
sequence without duplicate stop codes: the successor mapping is a
function, so a repeated stop would repeat the whole tail of the
traversal forever and the loop could not have reached the final
stop. -/
theorem stops_on_route_nodup (route : String) (data : List Row) (l : List String)
    (h : stops_on_route route data = some (TravResult.ok l)) : l.Nodup := by
  unfold stops_on_route at h
  rcases e1 : (pyTokens route).get? 0 with _ | a
  · rcases e2 : (pyTokens route).get? 2 with _ | b
    · rw [e1, e2] at h; exact absurd h (by simp)
    · rw [e1, e2] at h; exact absurd h (by simp)
  · rcases e2 : (pyTokens route).get? 2 with _ | b
    · rw [e1, e2] at h; exact absurd h (by simp)
    · rw [e1, e2] at h
      exact travel_ok_nodup (succMap route data) b (travelFuel data) a l h

set_option maxRecDepth 8000 in
theorem stops_on_route_nodup_witness : (["A", "B"] : List String).Nodup :=
  stops_on_route_nodup ("A - C") exData ["A", "B"] (by decide)

/-- Claim C5, evidence: on a route whose successor mapping sends A to
itself (a cycle not passing through the final stop B), the while-loop
of stops_on_route makes no progress for any number of iterations, so
the function hangs instead of failing with the "malformed route" error
the design document requires. -/
theorem stops_on_route_cycle_diverges :
    (∀ n, travel (succMap ("A - B") cycData) ("B") n ("A") = none) ∧
      stops_on_route ("A - B") cycData = none :=
  ⟨travel_selfloop (succMap ("A - B") cycData) ("B") ("A") (by decide) (by decide),
    by decide⟩

set_option maxRecDepth 8000 in
theorem freq_exData_delay :
    freq_major_delays_route ("A - C") exData 5 false ("delay") = some (3, 1, 3333/100) := by
  have hs : stops_on_route ("A - C") exData = some (TravResult.ok ["A", "B"]) := by decide
  have hba : (("B" == "A") : Bool) = false := by decide
  have hpr : pyRound2 ((3 : ℚ)⁻¹ * 100) = 3333/100 := by
    have hf : ⌊((3 : ℚ)⁻¹ * 100 * 100)⌋ = 3333 := by
      rw [Int.floor_eq_iff]
      norm_num
    unfold pyRound2 roundHalfEven
    rw [hf]
    norm_num
  unfold freq_major_delays_route
  rw [hs]
  norm_num [routeRows, exData, List.filter, hba]
  convert hpr using 2
  norm_num

set_option maxRecDepth 8000 in
theorem freq_exData_deviation :
    freq_major_delays_route ("A - C") exData 1 true ("deviation") = some (3, 1, 3333/100) := by
  have hs : stops_on_route ("A - C") exData = some (TravResult.ok ["A", "B"]) := by decide
  have hba : (("B" == "A") : Bool) = false := by decide
  have hpr : pyRound2 ((3 : ℚ)⁻¹ * 100) = 3333/100 := by
    have hf : ⌊((3 : ℚ)⁻¹ * 100 * 100)⌋ = 3333 := by
      rw [Int.floor_eq_iff]
      norm_num
    unfold pyRound2 roundHalfEven
    rw [hf]
    norm_num
  unfold freq_major_delays_route
  rw [hs]
  norm_num [routeRows, exData, List.filter, hba]
  convert hpr using 2
  norm_num

/-- Claim C6, counterexample to the unamended statement: with three
observations, one of them major, the returned percentage is the
rounded 33.33 and not the exact 100 * 1 / 3. -/
theorem freq_major_delays_route_rounds :
    freq_major_delays_route ("A - C") exData 5 false ("delay") = some (3, 1, 3333/100) ∧
      (3333/100 : ℚ) ≠ 100 * 1 / 3 :=
  ⟨freq_exData_delay, by norm_num⟩

theorem freq_major_delays_route_spec_witness :
    0 < 3 ∧ 1 ≤ 3 ∧ (3333/100 : ℚ) = pyRound2 (100 * ((1 : ℕ) : ℚ) / ((3 : ℕ) : ℚ)) :=
  freq_major_delays_route_spec ("A - C") exData 5 false ("delay") 3 1 (3333/100)
    freq_exData_delay

set_option maxRecDepth 8000 in
theorem freq_major_delays_route_counts_witness :
    2 ≤ (["A", "B"] : List String).length ∧
      3 = ((routeRows ("A - C") exData).filter (fun r => r.halt_kurz == "A")).length ∧
      1 = (((routeRows ("A - C") exData).filter (fun r => r.halt_kurz == "A")).filter
        (fun r => if (("deviation" : String) == "deviation") then
            decide ((if (true : Bool) then (1 : ℚ) * ((["A", "B"] : List String).length : ℚ)
              else 1) < |r.delay_after_trajectory|)
          else
            decide ((if (true : Bool) then (1 : ℚ) * ((["A", "B"] : List String).length : ℚ)
              else 1) < r.delay_after_trajectory))).length :=
  freq_major_delays_route_counts ("A - C") exData 1 true ("deviation") ["A", "B"] 3 1
    (3333/100) ("A") (by decide) freq_exData_deviation (by decide)

set_option maxRecDepth 8000 in
theorem contributions_spec_witness :
    ([("A", some (meansFor ("A - C") exData ("A", "La"))),
      ("B", some (meansFor ("A - C") exData ("B", "Lb")))].map Prod.fst = ["A", "B"]) ∧
    ([("A", some (meansFor ("A - C") exData ("A", "La"))),
      ("B", some (meansFor ("A - C") exData ("B", "Lb")))].length =
        (["A", "B"] : List String).length) ∧
    (∀ s o, (s, o) ∈ [("A", some (meansFor ("A - C") exData ("A", "La"))),
        ("B", some (meansFor ("A - C") exData ("B", "Lb")))] →
      (o = none ↔ ∀ r ∈ routeRows ("A - C") exData, r.halt_kurz_von1 ≠ s)) :=
  contributions_spec ("A - C") exData
    [("A", some (meansFor ("A - C") exData ("A", "La"))),
     ("B", some (meansFor ("A - C") exData ("B", "Lb")))] ["A", "B"] rfl (by decide)

set_option maxRecDepth 8000 in
theorem delay_along_route_additivity_witness :
    ∃ t s j, delay_along_route ("A - C") exData ("total") false = some t ∧
      delay_along_route ("A - C") exData ("at_stop") false = some s ∧
      delay_along_route ("A - C") exData ("on_trajectory") false = some j ∧
      t = s + j :=
  delay_along_route_additivity.1 ("A - C") exData (by with_unfolding_all decide)
    [("A", some (meansFor ("A - C") exData ("A", "La"))),
     ("B", some (meansFor ("A - C") exData ("B", "Lb")))] rfl

set_option maxRecDepth 8000 in
theorem measure_of_delay_line_first_route_witness :
    measure_of_delay_line 11 exData ("total") false true =
      (delay_along_route ("A - C") exData ("total") false).bind (fun num =>
        (number_of_stops ("A - C") exData).map (fun den =>
          if (true : Bool) then num / (den : ℚ) else num)) :=
  measure_of_delay_line_first_route 11 exData ("total") false true ("A - C") [] (by decide)

set_option maxRecDepth 8000 in
theorem delay_along_route_mean_then_abs_witness :
    delay_along_route ("A - C") exData ("total") true =
      some ((([("A", some (meansFor ("A - C") exData ("A", "La"))),
        ("B", some (meansFor ("A - C") exData ("B", "Lb")))].filterMap (fun p => p.2)).map
          (fun mn => |mn.total_holdup|)).sum) :=
  delay_along_route_mean_then_abs.1 ("A - C") exData
    [("A", some (meansFor ("A - C") exData ("A", "La"))),
     ("B", some (meansFor ("A - C") exData ("B", "Lb")))] rfl

/-- Claim C9, counterexample to the unamended statement: the code "B"
is present in the table but resolves to nothing, because its long name
"X" duplicates the value of the earlier code "A" and
drop_duplicates removes the row; and the contrived long name of code
"C" resolves to a name that still begins with the city prefix, because
removing occurrences anywhere can recreate one. -/
theorem convert_short_to_long_counterexample :
    (("B") ∈ c9Data.map Row.halt_kurz) ∧
      convert_short_to_long ("B") c9Data = none ∧
      convert_short_to_long ("C") c9Data = some (LocResult.scalar ("Zürich, X")) ∧
      beginsWith (String.toList ("Zürich,")) (String.toList ("Zürich, X")) = true :=
  ⟨by decide, by decide, by decide, by decide⟩

theorem convert_short_to_long_spec_witness :
    convert_short_to_long ("A") c9Data = some (LocResult.scalar (stripName ("X"))) :=
  (convert_short_to_long_spec ("A") c9Data).2 [] c9r1 [c9r2, c9r3] rfl rfl
    (by simp) (by simp) (by decide)
